import Mathlib

/-!
Verification of the background-job subsystem of the claude-daily tool.

The development shallowly embeds the Rust sources:
  src/jobs/manager.rs      (job registry, process probe, log truncation)
  src/auto_summarize.rs    (eligibility filter and trigger gate)

Modelling conventions:
  - the on-disk registry (one JSON file per job id) is a list of parsed
    JobInfo records; fs::write of a record file is save_job below;
  - chrono timestamps are integers (seconds); local calendar dates are
    integer day numbers; times of day are seconds since midnight;
  - process liveness and SIGTERM delivery are boolean oracles passed in
    explicitly (alive, killOk), mirroring libc::kill probes;
  - strings are treated as their character lists; for the ASCII data the
    claims are about, char count equals byte count.
-/

namespace ClaudeDaily

/-- Job status, from enum JobStatus in src/jobs/manager.rs. -/
inductive JobStatus where
  | Running
  | Completed
  | Failed (error : String)
deriving DecidableEq

/-- Job record, from struct JobInfo in src/jobs/manager.rs. -/
structure JobInfo where
  id : String
  pid : Nat
  task_name : String
  transcript_path : String
  started_at : Int
  finished_at : Option Int
  status : JobStatus
deriving DecidableEq

/-- The jobs directory: the parsed contents of every id.json file. -/
abbrev Store := List JobInfo

/-- JobManager::save_job writes the record file keyed by info.id: it
replaces the record with that id, or creates a new file. -/
def save_job (store : Store) (info : JobInfo) : Store :=
  match store with
  | [] => [info]
  | j :: rest => if j.id == info.id then info :: rest else j :: save_job rest info

/-- JobManager::load_job reads the record file for job_id; none models the
NotFound error path. -/
def load_job (store : Store) (job_id : String) : Option JobInfo :=
  store.find? (fun j => j.id == job_id)

/-- JobManager::register, src/jobs/manager.rs lines 98 to 117. -/
def register (store : Store) (job_id : String) (pid : Nat) (task_name : String)
    (transcript_path : String) (now : Int) : Store × JobInfo :=
  let info : JobInfo :=
    { id := job_id, pid := pid, task_name := task_name,
      transcript_path := transcript_path, started_at := now,
      finished_at := none, status := JobStatus.Running }
  (save_job store info, info)

/-- JobManager::mark_completed, src/jobs/manager.rs lines 136 to 141. -/
def mark_completed (store : Store) (job_id : String) (now : Int) : Option Store :=
  (load_job store job_id).map fun info =>
    save_job store { info with status := JobStatus.Completed, finished_at := some now }

/-- JobManager::mark_failed, src/jobs/manager.rs lines 144 to 151. -/
def mark_failed (store : Store) (job_id : String) (error : String) (now : Int) : Option Store :=
  (load_job store job_id).map fun info =>
    save_job store { info with status := JobStatus.Failed error, finished_at := some now }

/-- The reconciliation step inside JobManager::list, lines 164 to 171: a
Running record whose pid is no longer alive is rewritten to Failed with
finished_at set to now. -/
def reconcile (alive : Nat → Bool) (now : Int) (info : JobInfo) : JobInfo :=
  if info.status = JobStatus.Running && !(alive info.pid) then
    { info with status := JobStatus.Failed "Process terminated unexpectedly",
                finished_at := some now }
  else info

/-- Stable insertion keeping started_at descending: a later-arriving record
goes behind earlier records with the same or a larger started_at. -/
def insertDesc (j : JobInfo) : List JobInfo → List JobInfo
  | [] => [j]
  | k :: rest =>
    if decide (k.started_at < j.started_at) then j :: k :: rest else k :: insertDesc j rest

/-- The sort in JobManager::list line 182: jobs.sort_by comparing
b.started_at with a.started_at, a stable sort to newest first, modelled as
stable insertion sort. -/
def sortByStartedDesc : List JobInfo → List JobInfo
  | [] => []
  | j :: rest => insertDesc j (sortByStartedDesc rest)

/-- JobManager::list, src/jobs/manager.rs lines 154 to 184: reconcile every
record (saving rewrites back to disk), keep the ones to show, sort newest
first. Returns the updated directory contents and the displayed sequence. -/
def list (store : Store) (alive : Nat → Bool) (now : Int) (include_completed : Bool) :
    Store × List JobInfo :=
  let newStore := store.map (reconcile alive now)
  let shown := newStore.filter fun j => include_completed || decide (j.status = JobStatus.Running)
  (newStore, sortByStartedDesc shown)

/-- Outcome of JobManager::kill: the returned bool, the resulting directory
contents, whether a SIGTERM was requested (kill_process called), and how
many record writes were performed. -/
structure KillResult where
  ok : Bool
  store : Store
  signaled : Bool
  writes : Nat
deriving DecidableEq

/-- JobManager::kill, src/jobs/manager.rs lines 202 to 216. killOk models
kill_process (SIGTERM delivery success). none models the NotFound error. -/
def kill (store : Store) (job_id : String) (killOk : Nat → Bool) (now : Int) :
    Option KillResult :=
  match load_job store job_id with
  | none => none
  | some info =>
    if info.status ≠ JobStatus.Running then
      some { ok := false, store := store, signaled := false, writes := 0 }
    else if killOk info.pid then
      match mark_failed store job_id "Killed by user" now with
      | some s2 => some { ok := true, store := s2, signaled := true, writes := 1 }
      | none => none
    else
      some { ok := false, store := store, signaled := true, writes := 0 }

/-- JobManager::cleanup, src/jobs/manager.rs lines 219 to 243. Days are
converted to seconds as chrono::Duration::days does. Returns the surviving
directory contents and the number of record plus log pairs removed. -/
def cleanup (store : Store) (now : Int) (keep_days : Nat) : Store × Nat :=
  let cutoff := now - (keep_days : Int) * 86400
  let doomed := fun j : JobInfo =>
    decide (j.status ≠ JobStatus.Running) && decide (j.started_at < cutoff)
  (store.filter (fun j => !(doomed j)), (store.filter doomed).length)

/-- Digits of n in the given base, least significant first, computed with
explicit fuel so that the kernel can evaluate it. With fuel at least n the
result is the base-b representation. -/
def digitsRevGo (base : Nat) : Nat → Nat → List Nat
  | _, 0 => []
  | 0, _ + 1 => []
  | f + 1, n + 1 => (n + 1) % base :: digitsRevGo base f ((n + 1) / base)

/-- Digits of n in the given base, least significant first. -/
def digitsRev (base n : Nat) : List Nat := digitsRevGo base n n

/-- Lowercase hex rendering of n, most significant digit first, as the Rust
formatter {:x} produces (empty for 0, which only occurs under padding). -/
def hexChars (n : Nat) : List Char := ((digitsRev 16 n).map Nat.digitChar).reverse

/-- The Rust formatter {:06x}: lowercase hex, zero padded to width 6. -/
def hex06 (n : Nat) : String :=
  String.mk (List.replicate (6 - (hexChars n).length) '0' ++ hexChars n)

/-- The Rust formatter for a usize value in decimal. -/
def decStr (n : Nat) : String :=
  if n = 0 then "0" else String.mk (((digitsRev 10 n).map Nat.digitChar).reverse)

/-- sanitize_name, src/jobs/manager.rs lines 276 to 282 (ASCII reading of
char::is_alphanumeric and to_lowercase). -/
def sanitize_name (name : String) : String :=
  String.mk (((name.data.take 20).map
    (fun c => if c.isAlphanum || c == '-' then c else '-')).map Char.toLower)

/-- rand_id, src/jobs/manager.rs lines 285 to 292: the nanosecond reading of
the system clock, mixed as (total nanos as u32) xor subsec_nanos. -/
def rand_id (nanos : Nat) : Nat :=
  (nanos % 4294967296) ^^^ (nanos % 1000000000)

/-- JobManager::generate_job_id, src/jobs/manager.rs lines 81 to 85. The
timestamp argument models Local::now().format("%Y%m%d-%H%M%S"): two calls in
the same second observe the same timestamp string. nanos is the system-clock
reading used by rand_id. -/
def generate_job_id (timestamp : String) (task_name : String) (nanos : Nat) : String :=
  timestamp ++ "-" ++ sanitize_name task_name ++ "-" ++ hex06 (rand_id nanos)

/-- Strip one trailing carriage return from a line, as Rust str::lines does
for newline-terminated lines. -/
def stripCr (l : List Char) : List Char :=
  if l.getLast? = some '\r' then l.dropLast else l

/-- Accumulator pass behind rustLines: split at every newline, stripping a
carriage return before each newline; a final unterminated piece is kept
verbatim, and a trailing newline produces no empty final line. -/
def linesAux : List Char → List Char → List (List Char)
  | [], acc => if acc = [] then [] else [acc.reverse]
  | c :: rest, acc =>
    if c = '\n' then stripCr acc.reverse :: linesAux rest []
    else linesAux rest (c :: acc)

/-- Rust str::lines, used by JobManager::truncate_log_if_needed via
content.lines(). -/
def rustLines (s : String) : List String := (linesAux s.data []).map String.mk

/-- Rust slice join with a newline separator, used for
lines_from_keep.join back into file content. -/
def joinNl : List String → String
  | [] => ""
  | [l] => l
  | l :: l2 :: rest => l ++ "\n" ++ joinNl (l2 :: rest)

/-- Maximum log file size in bytes (1MB), src/jobs/manager.rs line 10. -/
def MAX_LOG_SIZE : Nat := 1024 * 1024

/-- The truncation marker line written by truncate_log_if_needed. -/
def truncHeader (k : Nat) : String :=
  "[... log truncated, showing last " ++ decStr k ++ " lines ...]"

/-- JobManager::truncate_log_if_needed, src/jobs/manager.rs lines 253 to
272, acting on the log file content: if the size exceeds the cap, keep the
trailing half of the lines behind a marker line. -/
def truncate_log_if_needed (content : String) : String :=
  if content.length > MAX_LOG_SIZE then
    truncHeader ((rustLines content).length - (rustLines content).length / 2) ++ "\n" ++
      joinNl ((rustLines content).drop ((rustLines content).length / 2))
  else content

/-- One candidate transcript file as the eligibility filter observes it:
its path string, its file stem, the fs metadata queries (local calendar day
of mtime, seconds elapsed since mtime; none models a failed query), and the
TranscriptParser outcome (none models a parse error, otherwise whether the
parsed data is empty). -/
structure TranscriptFile where
  path : String
  stem : String
  mtimeDay : Option Int
  elapsedSecs : Option Nat
  parsed : Option Bool
deriving DecidableEq

/-- struct UnsummarizedTranscript, src/auto_summarize.rs lines 13 to 17. -/
structure UnsummarizedTranscript where
  path : String
  session_id : String
  cwd : Option String
deriving DecidableEq

/-- is_transcript_active, src/auto_summarize.rs lines 102 to 112: modified
within the inactivity threshold; any metadata failure reads as inactive. -/
def is_transcript_active (t : TranscriptFile) (inactive_minutes : Nat) : Bool :=
  match t.elapsedSecs with
  | some e => e < inactive_minutes * 60
  | none => false

/-- is_transcript_from_yesterday, src/auto_summarize.rs lines 116 to 133:
the mtime local date is yesterday or today. -/
def is_transcript_from_yesterday (t : TranscriptFile) (today : Int) : Bool :=
  match t.mtimeDay with
  | some d => decide (d = today - 1) || decide (d = today)
  | none => false

/-- MAX_AUTO_SUMMARIZE, src/auto_summarize.rs line 147. -/
def MAX_AUTO_SUMMARIZE : Nat := 3

/-- The loop body of find_unsummarized_transcripts, src/auto_summarize.rs
lines 149 to 198: the ordered short-circuiting rules, pushing survivors and
breaking once the accumulated selection reaches the cap. -/
def findUnsummarizedAux (today : Int) (inactive_minutes : Nat) (archived : List String) :
    List TranscriptFile → List UnsummarizedTranscript → List UnsummarizedTranscript
  | [], acc => acc
  | t :: rest, acc =>
    if !(is_transcript_from_yesterday t today) then
      findUnsummarizedAux today inactive_minutes archived rest acc
    else if is_transcript_active t inactive_minutes then
      findUnsummarizedAux today inactive_minutes archived rest acc
    else if archived.contains t.path then
      findUnsummarizedAux today inactive_minutes archived rest acc
    else
      match t.parsed with
      | none => findUnsummarizedAux today inactive_minutes archived rest acc
      | some true => findUnsummarizedAux today inactive_minutes archived rest acc
      | some false =>
        let acc2 := acc ++ [{ path := t.path, session_id := t.stem, cwd := none }]
        if MAX_AUTO_SUMMARIZE ≤ acc2.length then acc2
        else findUnsummarizedAux today inactive_minutes archived rest acc2

/-- find_unsummarized_transcripts, src/auto_summarize.rs lines 142 to 201.
The transcripts argument models find_all_transcripts and archived models
get_archived_transcript_paths. -/
def find_unsummarized_transcripts (transcripts : List TranscriptFile)
    (archived : List String) (inactive_minutes : Nat) (today : Int) :
    List UnsummarizedTranscript :=
  findUnsummarizedAux today inactive_minutes archived transcripts []

/-- The summarization settings consumed by the trigger gate. trigger_time is
the outcome of NaiveTime::parse_from_str on auto_summarize_time, as seconds
of day (none models a parse failure). last_check is
last_auto_summarize_check: outer none when the field is absent, inner none
when DateTime::parse_from_rfc3339 fails, otherwise the recorded calendar
date and time of day. -/
structure AutoSummarizeConfig where
  auto_summarize_enabled : Bool
  trigger_time : Option Nat
  last_check : Option (Option (Int × Nat))
deriving DecidableEq

/-- should_trigger_auto_summarize, src/auto_summarize.rs lines 223 to 258.
todayDate is the local calendar date of now, nowTime the local time of day
in seconds. none models the Err path for an invalid time format. -/
def should_trigger_auto_summarize (cfg : AutoSummarizeConfig) (todayDate : Int)
    (nowTime : Nat) : Option Bool :=
  if !cfg.auto_summarize_enabled then some false
  else
    match cfg.trigger_time with
    | none => none
    | some tt =>
      if nowTime < tt then some false
      else
        match cfg.last_check with
        | some (some (d, t)) =>
          if decide (d = todayDate) && decide (tt ≤ t) then some false else some true
        | some none => some true
        | none => some true

/-- Modelled from the spec, for the refinement claim about the trigger
gate: the gate authorizes exactly when the master switch is enabled, the
current local time is at or after the configured time of day, and the
persisted last-check timestamp is not from today with a time at or after
the configured time. -/
def specTriggerGate (cfg : AutoSummarizeConfig) (todayDate : Int) (nowTime : Nat)
    (tt : Nat) : Prop :=
  cfg.auto_summarize_enabled = true ∧ tt ≤ nowTime ∧
    ¬ ∃ d t, cfg.last_check = some (some (d, t)) ∧ d = todayDate ∧ tt ≤ t

/-- The registry invariant from the spec data model: finished_at is set
exactly when the status is not Running. -/
abbrev InvStore (store : Store) : Prop :=
  ∀ j ∈ store, (j.finished_at.isSome = true ↔ j.status ≠ JobStatus.Running)

/-- Concrete Running record used by witnesses and counterexamples. -/
def jobRunDemo : JobInfo :=
  { id := "auto-abc123", pid := 4242, task_name := "auto",
    transcript_path := "/tmp/t.jsonl", started_at := 100,
    finished_at := none, status := JobStatus.Running }

/-- Concrete Completed record used by witnesses and counterexamples. -/
def jobDoneDemo : JobInfo :=
  { id := "auto-done001", pid := 4243, task_name := "auto",
    transcript_path := "/tmp/u.jsonl", started_at := 50,
    finished_at := some 60, status := JobStatus.Completed }

/-- Concrete log content above the size cap consisting of one long line. -/
def bigLine : String := String.mk (List.replicate 1048577 'a')

/-- Concrete trigger-gate configuration used by the witness. -/
def cfgDemo : AutoSummarizeConfig :=
  { auto_summarize_enabled := true, trigger_time := some 21600,
    last_check := some (some (20369, 21000)) }

/-- Concrete eligible transcript used by examples. -/
def transcriptDemo (p : String) : TranscriptFile :=
  { path := p, stem := p, mtimeDay := some 20370, elapsedSecs := some 3600,
    parsed := some false }

/-- Every record of the directory after save_job is the written record or a
previously present record. -/
theorem mem_save_job {store : Store} {info j : JobInfo} (h : j ∈ save_job store info) :
    j = info ∨ j ∈ store := by
  induction store with
  | nil => simpa [save_job] using h
  | cons k rest ih =>
    cases hk : k.id == info.id with
    | true =>
      simp only [save_job, hk, if_pos] at h
      rcases List.mem_cons.mp h with h1 | h1
      · exact Or.inl h1
      · exact Or.inr (List.mem_cons_of_mem _ h1)
    | false =>
      simp only [save_job, hk, Bool.false_eq_true, if_neg] at h
      rcases List.mem_cons.mp h with h1 | h1
      · exact Or.inr (by simp [h1])
      · rcases ih h1 with h2 | h2
        · exact Or.inl h2
        · exact Or.inr (List.mem_cons_of_mem _ h2)

/-- A loaded record carries the id it was looked up under. -/
theorem load_job_id_eq {store : Store} {job_id : String} {info : JobInfo}
    (h : load_job store job_id = some info) : info.id = job_id := by
  have hp := List.find?_some h
  simpa using hp

/-- Loading right after saving a record returns that record. -/
theorem load_job_save_job_self (store : Store) (info : JobInfo) :
    load_job (save_job store info) info.id = some info := by
  induction store with
  | nil => simp [save_job, load_job]
  | cons k rest ih =>
    cases hk : k.id == info.id with
    | true => simp [save_job, load_job, hk]
    | false =>
      simp only [save_job, hk, Bool.false_eq_true, if_neg]
      simpa [load_job, hk] using ih

/-- Saving a record that satisfies the finished-iff-terminal invariant
preserves the store invariant. -/
theorem save_job_invariant {store : Store} {info : JobInfo} (h : InvStore store)
    (hi : info.finished_at.isSome = true ↔ info.status ≠ JobStatus.Running) :
    InvStore (save_job store info) := by
  intro j hj
  rcases mem_save_job hj with rfl | hj2
  · exact hi
  · exact h j hj2

/-- Reconciliation of a Running record with a dead pid produces the Failed
record with finished_at set to now. -/
theorem reconcile_dead (alive : Nat → Bool) (now : Int) (j : JobInfo)
    (hrun : j.status = JobStatus.Running) (hdead : alive j.pid = false) :
    reconcile alive now j =
      { j with status := JobStatus.Failed "Process terminated unexpectedly",
               finished_at := some now } := by
  simp [reconcile, hrun, hdead]

/-- Reconciliation does not touch a record that is not Running. -/
theorem reconcile_not_running (alive : Nat → Bool) (now : Int) (j : JobInfo)
    (h : j.status ≠ JobStatus.Running) : reconcile alive now j = j := by
  simp [reconcile, h]

/-- Membership through the stable descending insertion. -/
theorem mem_insertDesc {a j : JobInfo} {l : List JobInfo} :
    a ∈ insertDesc j l ↔ a = j ∨ a ∈ l := by
  induction l with
  | nil => simp [insertDesc]
  | cons k rest ih =>
    by_cases hk : k.started_at < j.started_at
    · simp [insertDesc, hk]
    · simp [insertDesc, hk, ih]
      tauto

/-- Sorting for display preserves membership. -/
theorem mem_sortByStartedDesc {a : JobInfo} {l : List JobInfo} :
    a ∈ sortByStartedDesc l ↔ a ∈ l := by
  induction l with
  | nil => simp [sortByStartedDesc]
  | cons j rest ih => simp [sortByStartedDesc, mem_insertDesc, ih]

/-- C1 counterexample: on a Running record whose pid is dead, list rewrites
the record to Failed with the message "Process terminated unexpectedly"
(capital P), not the message "process terminated unexpectedly" stated by
the claim. -/
theorem list_reconcile_message_cex :
    (∃ j ∈ (list [jobRunDemo] (fun _ => false) 10 true).1,
        j.status = JobStatus.Failed "Process terminated unexpectedly") ∧
    ¬ ∃ j ∈ (list [jobRunDemo] (fun _ => false) 10 true).1,
        j.status = JobStatus.Failed "process terminated unexpectedly" := by
  decide

/-- C1 (amended): for every Running record whose pid is not alive, list
rewrites it to Failed("Process terminated unexpectedly") with finished_at
set to now before returning, and a subsequent list call including terminal
records reports the same record, still Failed. -/
theorem list_reconciles_dead_running (store : Store) (alive : Nat → Bool)
    (now now2 : Int) (inc : Bool) (j : JobInfo) (hj : j ∈ store)
    (hrun : j.status = JobStatus.Running) (hdead : alive j.pid = false) :
    ({ j with status := JobStatus.Failed "Process terminated unexpectedly",
              finished_at := some now } : JobInfo) ∈ (list store alive now inc).1 ∧
    ({ j with status := JobStatus.Failed "Process terminated unexpectedly",
              finished_at := some now } : JobInfo) ∈
      (list (list store alive now inc).1 alive now2 true).2 := by
  have hrec := reconcile_dead alive now j hrun hdead
  have h1 : ({ j with status := JobStatus.Failed "Process terminated unexpectedly",
                      finished_at := some now } : JobInfo) ∈ (list store alive now inc).1 := by
    simp only [list]
    exact List.mem_map.mpr ⟨j, hj, hrec⟩
  refine ⟨h1, ?_⟩
  have hrec2 : reconcile alive now2
      ({ j with status := JobStatus.Failed "Process terminated unexpectedly",
                finished_at := some now } : JobInfo) =
      ({ j with status := JobStatus.Failed "Process terminated unexpectedly",
                finished_at := some now } : JobInfo) := by
    apply reconcile_not_running
    simp
  simp only [list]
  rw [mem_sortByStartedDesc, List.mem_filter]
  exact ⟨List.mem_map.mpr ⟨_, h1, hrec2⟩, by simp⟩

/-- C1 witness: the amended statement evaluated on a one-record store with
a dead pid. -/
theorem list_reconciles_dead_running_witness :
    ({ jobRunDemo with status := JobStatus.Failed "Process terminated unexpectedly",
                        finished_at := some (10 : Int) } : JobInfo) ∈
        (list [jobRunDemo] (fun _ => false) 10 true).1 ∧
    ({ jobRunDemo with status := JobStatus.Failed "Process terminated unexpectedly",
                        finished_at := some (10 : Int) } : JobInfo) ∈
        (list (list [jobRunDemo] (fun _ => false) 10 true).1 (fun _ => false) 11 true).2 :=
  list_reconciles_dead_running [jobRunDemo] (fun _ => false) 10 11 true jobRunDemo
    (by decide) (by decide) rfl

/-- C2: register, markCompleted, markFailed, and the reconciliation inside
list all preserve the invariant that finished_at is set iff the status is
not Running. -/
theorem job_ops_preserve_invariant (store : Store) (h : InvStore store)
    (job_id : String) (pid : Nat) (task_name transcript_path : String)
    (now : Int) (id2 err : String) (alive : Nat → Bool) (inc : Bool) :
    InvStore (register store job_id pid task_name transcript_path now).1 ∧
    (∀ s2, mark_completed store id2 now = some s2 → InvStore s2) ∧
    (∀ s2, mark_failed store id2 err now = some s2 → InvStore s2) ∧
    InvStore (list store alive now inc).1 := by
  refine ⟨?_, ?_, ?_, ?_⟩
  · exact save_job_invariant h (by simp)
  · intro s2 hs2
    cases hload : load_job store id2 with
    | none => rw [mark_completed, hload] at hs2; simp at hs2
    | some info =>
      rw [mark_completed, hload] at hs2
      simp at hs2
      subst hs2
      exact save_job_invariant h (by simp)
  · intro s2 hs2
    cases hload : load_job store id2 with
    | none => rw [mark_failed, hload] at hs2; simp at hs2
    | some info =>
      rw [mark_failed, hload] at hs2
      simp at hs2
      subst hs2
      exact save_job_invariant h (by simp)
  · intro j hj
    simp only [list] at hj
    rcases List.mem_map.mp hj with ⟨k, hk, rfl⟩
    by_cases hc : k.status = JobStatus.Running ∧ alive k.pid = false
    · rw [reconcile_dead alive now k hc.1 hc.2]
      simp
    · have hr : reconcile alive now k = k := by
        cases ha : alive k.pid with
        | true => simp [reconcile, ha]
        | false =>
          have hs : ¬ k.status = JobStatus.Running := fun hrr => hc ⟨hrr, ha⟩
          simp [reconcile, hs]
      rw [hr]
      exact h k hk

/-- C2 witness: the invariant preservation evaluated on a concrete
two-record store for each of the four operations. -/
theorem job_ops_preserve_invariant_witness :
    InvStore [jobRunDemo, jobDoneDemo] ∧
    InvStore (register [jobRunDemo, jobDoneDemo] "j9" 3 "t" "/p" 7).1 ∧
    InvStore [{ jobRunDemo with status := JobStatus.Completed,
                                finished_at := some 7 }, jobDoneDemo] ∧
    InvStore (list [jobRunDemo, jobDoneDemo] (fun _ => false) 7 true).1 :=
  ⟨by decide,
   (job_ops_preserve_invariant [jobRunDemo, jobDoneDemo] (by decide) "j9" 3 "t" "/p" 7
      "auto-abc123" "boom" (fun _ => false) true).1,
   (job_ops_preserve_invariant [jobRunDemo, jobDoneDemo] (by decide) "j9" 3 "t" "/p" 7
      "auto-abc123" "boom" (fun _ => false) true).2.1 _ (by decide),
   (job_ops_preserve_invariant [jobRunDemo, jobDoneDemo] (by decide) "j9" 3 "t" "/p" 7
      "auto-abc123" "boom" (fun _ => false) true).2.2.2⟩

/-- C3: kill signals only a Running record; on delivery success it stores
Failed("Killed by user") and returns true; it returns false without error
when the record is not Running or delivery fails; after one successful
kill, a second kill of the same id returns false. -/
theorem kill_spec (store : Store) (job_id : String) (killOk : Nat → Bool)
    (now now2 : Int) (info : JobInfo) (h : load_job store job_id = some info) :
    (info.status ≠ JobStatus.Running →
      kill store job_id killOk now =
        some { ok := false, store := store, signaled := false, writes := 0 }) ∧
    (info.status = JobStatus.Running → killOk info.pid = false →
      kill store job_id killOk now =
        some { ok := false, store := store, signaled := true, writes := 0 }) ∧
    (info.status = JobStatus.Running → killOk info.pid = true →
      kill store job_id killOk now =
        some { ok := true,
               store := save_job store
                 { info with status := JobStatus.Failed "Killed by user",
                             finished_at := some now },
               signaled := true, writes := 1 } ∧
      load_job (save_job store
          { info with status := JobStatus.Failed "Killed by user",
                      finished_at := some now }) job_id =
        some { info with status := JobStatus.Failed "Killed by user",
                         finished_at := some now } ∧
      kill (save_job store
          { info with status := JobStatus.Failed "Killed by user",
                      finished_at := some now }) job_id killOk now2 =
        some { ok := false,
               store := save_job store
                 { info with status := JobStatus.Failed "Killed by user",
                             finished_at := some now },
               signaled := false, writes := 0 }) := by
  have hid : info.id = job_id := load_job_id_eq h
  refine ⟨?_, ?_, ?_⟩
  · intro hns
    simp [kill, h, hns]
  · intro hrun hko
    simp [kill, h, hrun, hko]
  · intro hrun hko
    have hload2 : load_job (save_job store
        { info with status := JobStatus.Failed "Killed by user",
                    finished_at := some now }) job_id =
        some { info with status := JobStatus.Failed "Killed by user",
                         finished_at := some now } := by
      have := load_job_save_job_self store
        { info with status := JobStatus.Failed "Killed by user",
                    finished_at := some now }
      simpa [hid] using this
    refine ⟨?_, hload2, ?_⟩
    · simp [kill, h, hrun, hko, mark_failed]
    · simp [kill, hload2]

/-- C3 witness: killing a non-Running record returns false with no signal
sent and no write. -/
theorem kill_spec_witness :
    kill [jobDoneDemo] "auto-done001" (fun _ => true) 5 =
      some { ok := false, store := [jobDoneDemo], signaled := false, writes := 0 } :=
  (kill_spec [jobDoneDemo] "auto-done001" (fun _ => true) 5 6 jobDoneDemo
    (by decide)).1 (by decide)

/-- C10: when kill finds a Running record but signal delivery fails, it
returns false, performs no write, and leaves the stored directory
unchanged. -/
theorem kill_signal_failure_no_change (store : Store) (job_id : String)
    (killOk : Nat → Bool) (now : Int) (info : JobInfo)
    (h : load_job store job_id = some info) (hrun : info.status = JobStatus.Running)
    (hko : killOk info.pid = false) :
    kill store job_id killOk now =
      some { ok := false, store := store, signaled := true, writes := 0 } := by
  simp [kill, h, hrun, hko]

/-- C10 witness: the failed-signal case on a concrete Running record. -/
theorem kill_signal_failure_no_change_witness :
    kill [jobRunDemo] "auto-abc123" (fun _ => false) 5 =
      some { ok := false, store := [jobRunDemo], signaled := true, writes := 0 } :=
  kill_signal_failure_no_change [jobRunDemo] "auto-abc123" (fun _ => false) 5 jobRunDemo
    (by decide) (by decide) rfl

/-- C8 counterexample: a repeat markCompleted on an already Completed
record is not a no-op: it overwrites finished_at with the new time, so the
stored record changes. -/
theorem mark_completed_repeat_cex :
    mark_completed [jobDoneDemo] "auto-done001" 75 ≠ some [jobDoneDemo] ∧
    mark_completed [jobDoneDemo] "auto-done001" 75 =
      some [{ jobDoneDemo with finished_at := some 75 }] := by
  decide

/-- C8 (amended): a repeat markCompleted on a Completed record, or a repeat
markFailed with the same error on a Failed record, succeeds rather than
erroring, preserves the status, and keeps finished_at set, updating it to
the new current time; finished_at is never cleared. -/
theorem mark_repeat_keeps_finished (store : Store) (job_id : String) (now2 : Int)
    (info : JobInfo) (h : load_job store job_id = some info) :
    (info.status = JobStatus.Completed →
      mark_completed store job_id now2 =
        some (save_job store { info with finished_at := some now2 }) ∧
      load_job (save_job store { info with finished_at := some now2 }) job_id =
        some { info with finished_at := some now2 }) ∧
    (∀ err, info.status = JobStatus.Failed err →
      mark_failed store job_id err now2 =
        some (save_job store { info with finished_at := some now2 }) ∧
      load_job (save_job store { info with finished_at := some now2 }) job_id =
        some { info with finished_at := some now2 }) := by
  have hid : info.id = job_id := load_job_id_eq h
  have hload2 : load_job (save_job store { info with finished_at := some now2 }) job_id =
      some { info with finished_at := some now2 } := by
    have := load_job_save_job_self store { info with finished_at := some now2 }
    simpa [hid] using this
  refine ⟨?_, ?_⟩
  · intro hst
    have hrec : ({ info with status := JobStatus.Completed,
                             finished_at := some now2 } : JobInfo) =
        { info with finished_at := some now2 } := by
      rw [← hst]
    refine ⟨?_, hload2⟩
    rw [mark_completed, h]
    simp [hrec]
  · intro err hst
    have hrec : ({ info with status := JobStatus.Failed err,
                             finished_at := some now2 } : JobInfo) =
        { info with finished_at := some now2 } := by
      rw [← hst]
    refine ⟨?_, hload2⟩
    rw [mark_failed, h]
    simp [hrec]

/-- C8 witness: the amended statement on a concrete Completed record. -/
theorem mark_repeat_keeps_finished_witness :
    mark_completed [jobDoneDemo] "auto-done001" 75 =
      some (save_job [jobDoneDemo] { jobDoneDemo with finished_at := some 75 }) ∧
    load_job (save_job [jobDoneDemo] { jobDoneDemo with finished_at := some 75 })
        "auto-done001" = some { jobDoneDemo with finished_at := some 75 } :=
  (mark_repeat_keeps_finished [jobDoneDemo] "auto-done001" 75 jobDoneDemo
    (by decide)).1 (by decide)

/-- Splitting a list by a boolean predicate splits its length. -/
theorem length_filter_not_add_length_filter (p : JobInfo → Bool) (l : List JobInfo) :
    (l.filter fun j => !(p j)).length + (l.filter p).length = l.length := by
  induction l with
  | nil => simp
  | cons j rest ih =>
    cases hp : p j <;> simp [List.filter_cons, hp] <;> omega

/-- C4: cleanup keeps a record exactly when it is not a terminal record
older than the cutoff, in particular it keeps every Running record, and
the returned count is exactly the number of removed record and log pairs. -/
theorem cleanup_spec (store : Store) (now : Int) (days : Nat) (j : JobInfo)
    (hj : j ∈ store) :
    (j ∈ (cleanup store now days).1 ↔
      ¬(j.status ≠ JobStatus.Running ∧ j.started_at < now - (days : Int) * 86400)) ∧
    (j.status = JobStatus.Running → j ∈ (cleanup store now days).1) ∧
    (cleanup store now days).1.length + (cleanup store now days).2 = store.length := by
  refine ⟨?_, ?_, ?_⟩
  · simp [cleanup, List.mem_filter, hj]
    tauto
  · intro hrun
    simp [cleanup, List.mem_filter, hj, hrun]
  · exact length_filter_not_add_length_filter _ _

/-- C4 witness: cleanup on a store with one Running record and one old
Completed record removes exactly the Completed one. -/
theorem cleanup_spec_witness :
    (jobRunDemo ∈ (cleanup [jobRunDemo, jobDoneDemo] 1000000 7).1 ↔
      ¬(jobRunDemo.status ≠ JobStatus.Running ∧
        jobRunDemo.started_at < 1000000 - (7 : Int) * 86400)) ∧
    (jobRunDemo.status = JobStatus.Running →
      jobRunDemo ∈ (cleanup [jobRunDemo, jobDoneDemo] 1000000 7).1) ∧
    (cleanup [jobRunDemo, jobDoneDemo] 1000000 7).1.length +
        (cleanup [jobRunDemo, jobDoneDemo] 1000000 7).2 =
      ([jobRunDemo, jobDoneDemo] : Store).length :=
  cleanup_spec [jobRunDemo, jobDoneDemo] 1000000 7 jobRunDemo (by decide)

/-- The selection loop never grows a below-cap accumulator past the cap. -/
theorem findUnsummarizedAux_length_le (today : Int) (m : Nat) (archived : List String) :
    ∀ (ts : List TranscriptFile) (acc : List UnsummarizedTranscript),
      acc.length < MAX_AUTO_SUMMARIZE →
      (findUnsummarizedAux today m archived ts acc).length ≤ MAX_AUTO_SUMMARIZE := by
  intro ts
  induction ts with
  | nil =>
    intro acc h
    simpa [findUnsummarizedAux] using Nat.le_of_lt h
  | cons t rest ih =>
    intro acc h
    cases h1 : is_transcript_from_yesterday t today with
    | false => simpa [findUnsummarizedAux, h1] using ih acc h
    | true =>
      cases h2 : is_transcript_active t m with
      | true => simpa [findUnsummarizedAux, h1, h2] using ih acc h
      | false =>
        by_cases h3 : t.path ∈ archived
        · simpa [findUnsummarizedAux, h1, h2, h3] using ih acc h
        · cases h4 : t.parsed with
          | none => simpa [findUnsummarizedAux, h1, h2, h3, h4] using ih acc h
          | some b =>
            cases b with
            | true => simpa [findUnsummarizedAux, h1, h2, h3, h4] using ih acc h
            | false =>
              by_cases h5 : MAX_AUTO_SUMMARIZE ≤ acc.length + 1
              · have hstep : (findUnsummarizedAux today m archived (t :: rest) acc).length =
                    acc.length + 1 := by
                  simp [findUnsummarizedAux, h1, h2, h3, h4, h5]
                rw [hstep]
                omega
              · have hstep : findUnsummarizedAux today m archived (t :: rest) acc =
                    findUnsummarizedAux today m archived rest
                      (acc ++ [{ path := t.path, session_id := t.stem, cwd := none }]) := by
                  simp [findUnsummarizedAux, h1, h2, h3, h4, h5]
                rw [hstep]
                apply ih
                simp only [List.length_append, List.length_cons, List.length_nil]
                omega

/-- C5: a single pass of the eligibility filter selects at most
MAX_AUTO_SUMMARIZE (3) transcripts, whatever the candidate set, the
archive, the inactivity threshold and the current date. -/
theorem find_unsummarized_le_three (transcripts : List TranscriptFile)
    (archived : List String) (inactive_minutes : Nat) (today : Int) :
    (find_unsummarized_transcripts transcripts archived inactive_minutes today).length ≤
      MAX_AUTO_SUMMARIZE :=
  findUnsummarizedAux_length_le today inactive_minutes archived transcripts []
    (by simp [MAX_AUTO_SUMMARIZE])

/-- C6: with a valid configured time, the time-based trigger gate returns
Ok(true) exactly when the master switch is enabled, the current local time
is at or after the configured time of day, and the persisted last-check
timestamp is not from today with a time at or after the configured time. -/
theorem should_trigger_iff_spec (cfg : AutoSummarizeConfig) (todayDate : Int)
    (nowTime tt : Nat) (h : cfg.trigger_time = some tt) :
    should_trigger_auto_summarize cfg todayDate nowTime = some true ↔
      specTriggerGate cfg todayDate nowTime tt := by
  unfold should_trigger_auto_summarize specTriggerGate
  rw [h]
  cases he : cfg.auto_summarize_enabled with
  | false => simp [he]
  | true =>
    by_cases hlt : nowTime < tt
    · simp [he, hlt]
    · cases hlc : cfg.last_check with
      | none => simp [he, hlt, hlc, Nat.le_of_not_lt hlt]
      | some o =>
        cases o with
        | none => simp [he, hlt, hlc, Nat.le_of_not_lt hlt]
        | some p =>
          obtain ⟨d, t⟩ := p
          by_cases hd : d = todayDate
          · by_cases ht : tt ≤ t
            · simp [he, hlt, hlc, hd, ht]
            · simp [he, hlt, hlc, hd, ht, Nat.le_of_not_lt hlt]
              omega
          · simp [he, hlt, hlc, hd, Nat.le_of_not_lt hlt]

/-- C6 witness: the gate triggers on a concrete enabled configuration at
07:00 with a last check from yesterday. -/
theorem should_trigger_iff_spec_witness :
    should_trigger_auto_summarize cfgDemo 20370 25200 = some true :=
  (should_trigger_iff_spec cfgDemo 20370 25200 21600 rfl).mpr
    ⟨rfl, by omega, by rintro ⟨d, t, hdt, hd, ht⟩; simp [cfgDemo] at hdt; omega⟩

/-- Digits produced with fuel are below the base. -/
theorem digitsRevGo_lt_base (base : Nat) (hb : 0 < base) :
    ∀ f n, ∀ d ∈ digitsRevGo base f n, d < base := by
  intro f
  induction f with
  | zero =>
    intro n d hd
    cases n with
    | zero => simp [digitsRevGo] at hd
    | succ m => simp [digitsRevGo] at hd
  | succ f ih =>
    intro n d hd
    cases n with
    | zero => simp [digitsRevGo] at hd
    | succ m =>
      rcases List.mem_cons.mp hd with rfl | hmem
      · exact Nat.mod_lt _ hb
      · exact ih _ d hmem

/-- With enough fuel, the digit list evaluates back to the number. -/
theorem ofDigits_digitsRevGo (base : Nat) (hb : 1 < base) :
    ∀ f n, n ≤ f → Nat.ofDigits base (digitsRevGo base f n) = n := by
  intro f
  induction f with
  | zero =>
    intro n hn
    have : n = 0 := Nat.le_zero.mp hn
    subst this
    simp [digitsRevGo]
  | succ f ih =>
    intro n hn
    cases n with
    | zero => simp [digitsRevGo]
    | succ m =>
      have hdiv : (m + 1) / base < m + 1 := Nat.div_lt_self (Nat.succ_pos m) hb
      have hle : (m + 1) / base ≤ f := by omega
      simp only [digitsRevGo, Nat.ofDigits_cons, ih _ hle]
      exact Nat.mod_add_div _ _

/-- The fueled digit list determines the number. -/
theorem digitsRev_inj (base : Nat) (hb : 1 < base) {n1 n2 : Nat}
    (h : digitsRev base n1 = digitsRev base n2) : n1 = n2 := by
  have h1 := ofDigits_digitsRevGo base hb n1 n1 (Nat.le_refl n1)
  have h2 := ofDigits_digitsRevGo base hb n2 n2 (Nat.le_refl n2)
  rw [← h1, ← h2]
  unfold digitsRev at h
  rw [h]

/-- A positive number with enough fuel has at least one digit. -/
theorem digitsRevGo_ne_nil (base : Nat) :
    ∀ f n, 0 < n → n ≤ f → digitsRevGo base f n ≠ [] := by
  intro f n hn hf
  cases f with
  | zero => omega
  | succ f =>
    cases n with
    | zero => omega
    | succ m => simp [digitsRevGo]

/-- The most significant digit of a positive number is nonzero. -/
theorem getLast?_digitsRevGo_ne_zero (base : Nat) (hb : 1 < base) :
    ∀ f n, 0 < n → n ≤ f → (digitsRevGo base f n).getLast? ≠ some 0 := by
  intro f
  induction f with
  | zero => intro n hn hf; omega
  | succ f ih =>
    intro n hn hf
    cases n with
    | zero => omega
    | succ m =>
      by_cases hq : (m + 1) / base = 0
      · have hlt : m + 1 < base := (Nat.div_eq_zero_iff (by omega)).mp hq
        have : digitsRevGo base (f + 1) (m + 1) = [(m + 1) % base] := by
          simp [digitsRevGo, hq]
        rw [this]
        simp [Nat.mod_eq_of_lt hlt]
      · have hqpos : 0 < (m + 1) / base := Nat.pos_of_ne_zero hq
        have hdiv : (m + 1) / base < m + 1 := Nat.div_lt_self (Nat.succ_pos m) hb
        have hle : (m + 1) / base ≤ f := by omega
        have hne := digitsRevGo_ne_nil base f ((m + 1) / base) hqpos hle
        obtain ⟨c, L, hcl⟩ := List.exists_cons_of_ne_nil hne
        have : digitsRevGo base (f + 1) (m + 1) =
            (m + 1) % base :: c :: L := by
          simp [digitsRevGo, hcl]
        rw [this, List.getLast?_cons_cons, ← hcl]
        exact ih _ hqpos hle

/-- An element delivered by getLast? is a member of the list. -/
theorem mem_of_getLast?_eq {l : List Nat} {a : Nat} (h : l.getLast? = some a) : a ∈ l := by
  induction l with
  | nil => simp at h
  | cons b rest ih =>
    cases rest with
    | nil =>
      simp at h
      simp [h]
    | cons c L =>
      rw [List.getLast?_cons_cons] at h
      exact List.mem_cons_of_mem _ (ih h)

/-- Hex digit characters are injective on digit values. -/
theorem digitChar_inj_lt :
    ∀ d1, d1 < 16 → ∀ d2, d2 < 16 → Nat.digitChar d1 = Nat.digitChar d2 → d1 = d2 := by
  decide

/-- Hex digit characters of nonzero digits differ from the zero digit. -/
theorem digitChar_ne_zero_char : ∀ d, d < 16 → d ≠ 0 → Nat.digitChar d ≠ '0' := by
  decide

/-- Mapping to digit characters is injective on lists of digit values. -/
theorem map_digitChar_inj :
    ∀ l1 l2 : List Nat, (∀ d ∈ l1, d < 16) → (∀ d ∈ l2, d < 16) →
      l1.map Nat.digitChar = l2.map Nat.digitChar → l1 = l2 := by
  intro l1
  induction l1 with
  | nil =>
    intro l2 _ _ h
    cases l2 with
    | nil => rfl
    | cons d L => simp at h
  | cons d1 L1 ih =>
    intro l2 hb1 hb2 h
    cases l2 with
    | nil => simp at h
    | cons d2 L2 =>
      simp only [List.map_cons, List.cons.injEq] at h
      have hd : d1 = d2 :=
        digitChar_inj_lt d1 (hb1 d1 (by simp)) d2 (hb2 d2 (by simp)) h.1
      have hl : L1 = L2 :=
        ih L2 (fun d hd2 => hb1 d (List.mem_cons_of_mem _ hd2))
          (fun d hd2 => hb2 d (List.mem_cons_of_mem _ hd2)) h.2
      rw [hd, hl]

/-- Left zero padding cancels when neither payload starts with the padding
character. -/
theorem replicate_zero_append_cancel :
    ∀ (a b : Nat) (l1 l2 : List Char),
      (∀ c, l1.head? = some c → c ≠ '0') → (∀ c, l2.head? = some c → c ≠ '0') →
      List.replicate a '0' ++ l1 = List.replicate b '0' ++ l2 → l1 = l2 := by
  intro a
  induction a with
  | zero =>
    intro b l1 l2 h1 h2 h
    cases b with
    | zero => simpa using h
    | succ b =>
      exfalso
      simp only [List.replicate_zero, List.nil_append, List.replicate_succ,
        List.cons_append] at h
      apply h1 '0'
      · rw [h]
        rfl
      · rfl
  | succ a ih =>
    intro b l1 l2 h1 h2 h
    cases b with
    | zero =>
      exfalso
      simp only [List.replicate_zero, List.nil_append, List.replicate_succ,
        List.cons_append] at h
      apply h2 '0'
      · rw [← h]
        rfl
      · rfl
    | succ b =>
      simp only [List.replicate_succ, List.cons_append, List.cons.injEq, true_and] at h
      exact ih b l1 l2 h1 h2 h

/-- The most significant hex character of any number is not the padding
character. -/
theorem hexChars_head_ne_zero (n : Nat) :
    ∀ c, (hexChars n).head? = some c → c ≠ '0' := by
  intro c hc
  unfold hexChars at hc
  rw [List.head?_reverse, List.getLast?_map] at hc
  cases hl : (digitsRev 16 n).getLast? with
  | none => rw [hl] at hc; simp at hc
  | some d =>
    rw [hl] at hc
    simp at hc
    have hn : 0 < n := by
      by_contra hn0
      have : n = 0 := by omega
      subst this
      simp [digitsRev, digitsRevGo] at hl
    have hdne : d ≠ 0 := by
      intro hd0
      subst hd0
      exact getLast?_digitsRevGo_ne_zero 16 (by omega) n n hn (Nat.le_refl n) hl
    have hdlt : d < 16 :=
      digitsRevGo_lt_base 16 (by omega) n n d (mem_of_getLast?_eq hl)
    rw [← hc]
    exact digitChar_ne_zero_char d hdlt hdne

/-- The padded six-wide hex formatter is injective. -/
theorem hex06_inj {n1 n2 : Nat} (h : hex06 n1 = hex06 n2) : n1 = n2 := by
  unfold hex06 at h
  have hdata := congrArg String.data h
  simp only at hdata
  have hchars : hexChars n1 = hexChars n2 :=
    replicate_zero_append_cancel _ _ _ _ (hexChars_head_ne_zero n1)
      (hexChars_head_ne_zero n2) hdata
  unfold hexChars at hchars
  rw [List.reverse_inj] at hchars
  have hdig : digitsRev 16 n1 = digitsRev 16 n2 :=
    map_digitChar_inj _ _ (digitsRevGo_lt_base 16 (by omega) n1 n1)
      (digitsRevGo_lt_base 16 (by omega) n2 n2) hchars
  exact digitsRev_inj 16 (by omega) hdig

/-- C9 counterexample: two distinct system-clock readings inside the same
second (one nanosecond apart) produce identical job ids for the same task
name, because rand_id is a deterministic mix of the reading. -/
theorem generate_job_id_collision_cex :
    generate_job_id "20251012-000000" "auto" 1760227200000000000 =
      generate_job_id "20251012-000000" "auto" 1760227200000000001 ∧
    (1760227200000000000 : Nat) ≠ 1760227200000000001 ∧
    (1760227200000000000 : Nat) / 1000000000 = 1760227200000000001 / 1000000000 := by
  refine ⟨?_, by decide, by decide⟩
  have hr : rand_id 1760227200000000000 = rand_id 1760227200000000001 := by decide
  unfold generate_job_id
  rw [hr]

/-- C9 (amended): within one second (same formatted timestamp) and for the
same task name, two generated job ids coincide exactly when rand_id of the
two clock readings coincide; ids are distinct whenever the mixed random
suffixes differ, but distinctness is not guaranteed for arbitrary readings
in that second. -/
theorem generate_job_id_eq_iff_rand_eq (timestamp task : String) (n1 n2 : Nat) :
    generate_job_id timestamp task n1 = generate_job_id timestamp task n2 ↔
      rand_id n1 = rand_id n2 := by
  constructor
  · intro h
    unfold generate_job_id at h
    have hdata := congrArg String.data h
    rw [String.data_append, String.data_append] at hdata
    have hx : (hex06 (rand_id n1)).data = (hex06 (rand_id n2)).data :=
      List.append_cancel_left hdata
    exact hex06_inj (String.ext hx)
  · intro h
    unfold generate_job_id
    rw [h]

/-- Stripping a trailing carriage return introduces no character. -/
theorem mem_stripCr {c : Char} {l : List Char} (h : c ∈ stripCr l) : c ∈ l := by
  unfold stripCr at h
  split at h
  · exact (List.dropLast_sublist l).subset h
  · exact h

/-- Stripping does nothing when the line does not end in a carriage
return. -/
theorem stripCr_eq_self {l : List Char} (h : l.getLast? ≠ some '\r') :
    stripCr l = l := by
  unfold stripCr
  rw [if_neg h]

/-- No line produced by the splitting pass contains a newline. -/
theorem linesAux_no_newline :
    ∀ (cs acc : List Char), '\n' ∉ acc → ∀ p ∈ linesAux cs acc, '\n' ∉ p := by
  intro cs
  induction cs with
  | nil =>
    intro acc hacc p hp
    unfold linesAux at hp
    split at hp
    · simp at hp
    · simp at hp
      subst hp
      simpa using hacc
  | cons c rest ih =>
    intro acc hacc p hp
    by_cases hc : c = '\n'
    · rw [show linesAux (c :: rest) acc = stripCr acc.reverse :: linesAux rest [] by
        simp [linesAux, hc]] at hp
      rcases List.mem_cons.mp hp with rfl | hp2
      · intro hmem
        exact hacc (List.mem_reverse.mp (mem_stripCr hmem))
      · exact ih [] (by simp) p hp2
    · rw [show linesAux (c :: rest) acc = linesAux rest (c :: acc) by
        simp [linesAux, hc]] at hp
      refine ih (c :: acc) ?_ p hp
      intro hmem
      rcases List.mem_cons.mp hmem with h1 | h1
      · exact hc h1.symm
      · exact hacc h1

/-- No line reported by rustLines contains a newline. -/
theorem rustLines_no_newline (s : String) : ∀ l ∈ rustLines s, '\n' ∉ l.data := by
  intro l hl
  unfold rustLines at hl
  rcases List.mem_map.mp hl with ⟨p, hp, rfl⟩
  exact linesAux_no_newline s.data [] (by simp) p hp

/-- Splitting a newline-terminated block emits it as one stripped line. -/
theorem linesAux_append_newline :
    ∀ (l : List Char), '\n' ∉ l → ∀ (rest acc : List Char),
      linesAux (l ++ '\n' :: rest) acc = stripCr (acc.reverse ++ l) :: linesAux rest [] := by
  intro l
  induction l with
  | nil =>
    intro _ rest acc
    simp [linesAux]
  | cons c l ih =>
    intro hnl rest acc
    have hc : ¬ c = '\n' := fun h => hnl (by simp [h])
    have hl : '\n' ∉ l := fun h => hnl (List.mem_cons_of_mem _ h)
    show linesAux (c :: (l ++ '\n' :: rest)) acc = _
    rw [show linesAux (c :: (l ++ '\n' :: rest)) acc =
        linesAux (l ++ '\n' :: rest) (c :: acc) by simp [linesAux, hc]]
    rw [ih hl rest (c :: acc)]
    simp [List.append_assoc]

/-- Splitting a nonempty newline-free block yields exactly that block. -/
theorem linesAux_no_newline_eq :
    ∀ (l acc : List Char), '\n' ∉ l → (acc ≠ [] ∨ l ≠ []) →
      linesAux l acc = [acc.reverse ++ l] := by
  intro l
  induction l with
  | nil =>
    intro acc _ hne
    have hacc : acc ≠ [] := by
      rcases hne with h | h
      · exact h
      · exact absurd rfl h
    simp [linesAux, hacc]
  | cons c l ih =>
    intro acc hnl _
    have hc : ¬ c = '\n' := fun h => hnl (by simp [h])
    have hl : '\n' ∉ l := fun h => hnl (List.mem_cons_of_mem _ h)
    rw [show linesAux (c :: l) acc = linesAux l (c :: acc) by simp [linesAux, hc]]
    rw [ih (c :: acc) hl (Or.inl (by simp))]
    simp

/-- The splitting pass on a nonempty input yields at least one line. -/
theorem linesAux_ne_nil :
    ∀ (cs acc : List Char), (cs ≠ [] ∨ acc ≠ []) → linesAux cs acc ≠ [] := by
  intro cs
  induction cs with
  | nil =>
    intro acc hne
    have hacc : acc ≠ [] := by
      rcases hne with h | h
      · exact absurd rfl h
      · exact h
    simp [linesAux, hacc]
  | cons c rest ih =>
    intro acc _
    by_cases hc : c = '\n'
    · simp [linesAux, hc]
    · rw [show linesAux (c :: rest) acc = linesAux rest (c :: acc) by simp [linesAux, hc]]
      exact ih (c :: acc) (Or.inr (by simp))

/-- Character data of a join step. -/
theorem joinNl_cons_cons_data (l l2 : String) (rest : List String) :
    (joinNl (l :: l2 :: rest)).data = l.data ++ '\n' :: (joinNl (l2 :: rest)).data := by
  show (l ++ "\n" ++ joinNl (l2 :: rest)).data = _
  rw [String.data_append, String.data_append]
  simp

/-- Rereading a joined block of newline-free lines, none ending in a
carriage return and the last one nonempty, recovers exactly those lines. -/
theorem rustLines_joinNl :
    ∀ kept : List String, (∀ l ∈ kept, '\n' ∉ l.data) →
      (∀ l ∈ kept, l.data.getLast? ≠ some '\r') →
      kept.getLast? ≠ some "" → rustLines (joinNl kept) = kept := by
  intro kept
  induction kept with
  | nil =>
    intro _ _ _
    show List.map String.mk (linesAux "".data []) = []
    simp [linesAux]
  | cons l tail ih =>
    intro hnl hcr hlast
    cases tail with
    | nil =>
      have hne : l ≠ "" := by
        intro h0
        subst h0
        exact hlast rfl
      have hdne : l.data ≠ [] := by
        intro h0
        exact hne (String.ext h0)
      show List.map String.mk (linesAux (joinNl [l]).data []) = [l]
      rw [show joinNl [l] = l from rfl]
      rw [linesAux_no_newline_eq l.data [] (hnl l (by simp)) (Or.inr hdne)]
      simp
    | cons l2 rest =>
      show List.map String.mk (linesAux (joinNl (l :: l2 :: rest)).data []) = l :: l2 :: rest
      rw [joinNl_cons_cons_data]
      rw [linesAux_append_newline l.data (hnl l (by simp)) _ []]
      rw [List.map_cons]
      simp only [List.reverse_nil, List.nil_append]
      rw [stripCr_eq_self (hcr l (by simp))]
      have htail := ih (fun x hx => hnl x (List.mem_cons_of_mem _ hx))
        (fun x hx => hcr x (List.mem_cons_of_mem _ hx))
        (by rw [← List.getLast?_cons_cons]; exact hlast)
      unfold rustLines at htail
      rw [htail]

/-- Decimal digit characters are neither newlines nor carriage returns. -/
theorem decStr_data_tame (k : Nat) :
    ∀ c ∈ (decStr k).data, c ≠ '\n' ∧ c ≠ '\r' := by
  intro c hc
  unfold decStr at hc
  split at hc
  · simp at hc
    subst hc
    decide
  · simp only at hc
    rw [List.mem_reverse] at hc
    rcases List.mem_map.mp hc with ⟨d, hd, rfl⟩
    have hdlt : d < 10 := digitsRevGo_lt_base 10 (by omega) k k d hd
    have htame : ∀ d2, d2 < 10 → Nat.digitChar d2 ≠ '\n' ∧ Nat.digitChar d2 ≠ '\r' := by
      decide
    exact htame d hdlt

/-- The truncation marker line contains no newline. -/
theorem truncHeader_no_newline (k : Nat) : '\n' ∉ (truncHeader k).data := by
  intro hmem
  unfold truncHeader at hmem
  rw [String.data_append, String.data_append] at hmem
  rcases List.mem_append.mp hmem with h1 | h1
  · rcases List.mem_append.mp h1 with h2 | h2
    · revert h2
      decide
    · exact (decStr_data_tame k _ h2).1 rfl
  · revert h1
    decide

/-- The truncation marker line does not end in a carriage return. -/
theorem truncHeader_last_ne_cr (k : Nat) :
    (truncHeader k).data.getLast? ≠ some '\r' := by
  unfold truncHeader
  rw [String.data_append, List.getLast?_append]
  rw [show (" lines ...]".data.getLast?) = some ']' from rfl]
  simp

/-- C7 (amended): when the log content exceeds the cap, the rewritten file
parses back into the truncation-marker line announcing the kept count,
followed verbatim by the trailing half of the original lines (those from
index n / 2 on). The hypotheses exclude lines ending in a bare carriage
return and an empty final line, for which Rust line splitting is not
invertible. The rewritten file is not in general back under the cap. -/
theorem truncate_log_marker_and_tail (content : String)
    (hbig : content.length > MAX_LOG_SIZE)
    (hcr : ∀ l ∈ rustLines content, l.data.getLast? ≠ some '\r')
    (hlast : (rustLines content).getLast? ≠ some "") :
    rustLines (truncate_log_if_needed content) =
      truncHeader ((rustLines content).length - (rustLines content).length / 2) ::
        (rustLines content).drop ((rustLines content).length / 2) := by
  have htr : truncate_log_if_needed content =
      truncHeader ((rustLines content).length - (rustLines content).length / 2) ++ "\n" ++
        joinNl ((rustLines content).drop ((rustLines content).length / 2)) := by
    unfold truncate_log_if_needed
    rw [if_pos hbig]
  have hdne : content.data ≠ [] := by
    intro h0
    have : content.length = 0 := by
      show content.data.length = 0
      rw [h0]
      rfl
    omega
  have hLne : rustLines content ≠ [] := by
    unfold rustLines
    intro hmap
    exact linesAux_ne_nil content.data [] (Or.inl hdne) (List.map_eq_nil_iff.mp hmap)
  have hnpos : 0 < (rustLines content).length := List.length_pos.mpr hLne
  have hm : (rustLines content).length / 2 < (rustLines content).length :=
    Nat.div_lt_self hnpos (by omega)
  have hkept_nl : ∀ l ∈ (rustLines content).drop ((rustLines content).length / 2),
      '\n' ∉ l.data :=
    fun l hl => rustLines_no_newline content l (List.mem_of_mem_drop hl)
  have hkept_cr : ∀ l ∈ (rustLines content).drop ((rustLines content).length / 2),
      l.data.getLast? ≠ some '\r' :=
    fun l hl => hcr l (List.mem_of_mem_drop hl)
  have hkept_last : ((rustLines content).drop
      ((rustLines content).length / 2)).getLast? ≠ some "" := by
    rw [List.getLast?_drop, if_neg (by omega)]
    exact hlast
  rw [htr]
  show List.map String.mk (linesAux (truncHeader _ ++ "\n" ++ joinNl _).data []) = _
  rw [String.data_append, String.data_append]
  rw [show ("\n".data) = ['\n'] from rfl]
  rw [List.append_assoc, List.singleton_append]
  rw [linesAux_append_newline _ (truncHeader_no_newline _) _ []]
  rw [List.map_cons]
  simp only [List.reverse_nil, List.nil_append]
  rw [stripCr_eq_self (truncHeader_last_ne_cr _)]
  have hjoin := rustLines_joinNl _ hkept_nl hkept_cr hkept_last
  rw [show List.map String.mk
      (linesAux (joinNl ((rustLines content).drop
        ((rustLines content).length / 2))).data []) =
      rustLines (joinNl ((rustLines content).drop
        ((rustLines content).length / 2))) from rfl]
  rw [hjoin]

/-- The one-line oversized log parses into itself. -/
theorem rustLines_bigLine : rustLines bigLine = [bigLine] := by
  have hnl : '\n' ∉ List.replicate 1048577 'a' := by
    intro h
    exact absurd (List.mem_replicate.mp h).2 (by decide)
  have hne : List.replicate 1048577 'a' ≠ ([] : List Char) := by
    intro h
    have hlen := congrArg List.length h
    rw [List.length_replicate] at hlen
    exact absurd hlen (by decide)
  show List.map String.mk (linesAux bigLine.data []) = [bigLine]
  rw [show bigLine.data = List.replicate 1048577 'a' from rfl]
  rw [linesAux_no_newline_eq _ [] hnl (Or.inr hne)]
  rfl

/-- The oversized demo line really is over the cap. -/
theorem bigLine_length : bigLine.length = 1048577 := by
  show bigLine.data.length = 1048577
  rw [show bigLine.data = List.replicate 1048577 'a' from rfl]
  exact List.length_replicate _ _

/-- C7 counterexample: on a log consisting of one line larger than the cap,
truncate_log_if_needed rewrites the file yet leaves it strictly larger than
the 1 MB cap (it even grows it by the marker line), refuting the claim that
the resulting size is at or below the cap. -/
theorem truncate_log_size_cex :
    bigLine.length > MAX_LOG_SIZE ∧
    (truncate_log_if_needed bigLine).length > MAX_LOG_SIZE := by
  have hbig : bigLine.length > MAX_LOG_SIZE := by
    rw [bigLine_length]
    decide
  refine ⟨hbig, ?_⟩
  have htr : truncate_log_if_needed bigLine =
      truncHeader 1 ++ "\n" ++ joinNl [bigLine] := by
    unfold truncate_log_if_needed
    rw [if_pos hbig, rustLines_bigLine]
    rfl
  rw [htr]
  rw [String.length_append, String.length_append]
  have hj : (joinNl [bigLine]).length = 1048577 := by
    rw [show joinNl [bigLine] = bigLine from rfl]
    exact bigLine_length
  rw [hj]
  show 1024 * 1024 < _
  omega

/-- C7 witness: the amended statement on the oversized one-line log. -/
theorem truncate_log_marker_and_tail_witness :
    rustLines (truncate_log_if_needed bigLine) = [truncHeader 1, bigLine] := by
  have h := truncate_log_marker_and_tail bigLine
    (by rw [bigLine_length]; decide)
    (by
      rw [rustLines_bigLine]
      intro l hl
      have hlb : l = bigLine := List.mem_singleton.mp hl
      subst hlb
      rw [show bigLine.data = List.replicate 1048577 'a' from rfl]
      rw [List.getLast?_replicate]
      rw [if_neg (by decide)]
      decide)
    (by
      rw [rustLines_bigLine]
      intro h0
      rw [show ([bigLine].getLast?) = some bigLine from rfl] at h0
      have hb : bigLine = "" := Option.some.inj h0
      have hd := congrArg String.data hb
      rw [show bigLine.data = List.replicate 1048577 'a' from rfl] at hd
      have hlen := congrArg List.length hd
      rw [List.length_replicate] at hlen
      exact absurd hlen (by decide))
  rw [rustLines_bigLine] at h
  simpa using h

end ClaudeDaily
